import Mathlib

/-!
Shallow embedding of `src/1D_diff_and_adv_geothermal.py`, the 1-D coupled
heat-diffusion-and-advection geothermal reservoir model.

All floating-point arithmetic of the source is embedded as exact rational
arithmetic (`ℚ`): every quantity the program computes (velocity, the stability
coefficients `s`, `vn`, `c`, the transport operator entries, the temperature
profile) is a rational function of the inputs, so the structural claims of the
specification (identity rows, stencil coefficients, boundary pinning, gate
verdicts, iteration counts) are exact statements over `ℚ`.

The embedding follows the source line by line:
* `arange`, `linspace` model the two numpy grid constructors used at
  lines 50 and 52;
* `Amat` models the matrix built at lines 85-93 (the loop writes of rows
  `2 .. nodes-2`, then the three diagonal boundary writes, which touch rows
  the loop never writes);
* `pin` models the slice assignment `T[1:3] = S` at line 105;
* `stepOnce` models one body of the `while` loop (lines 103-105:
  `new_T = np.dot(A, T); T[:] = new_T*1; T[1:3] = S`);
* `march` models the `while time <= totaltime` loop (lines 100-106);
* `geothermal_model` models the function `geothermal_model` (lines 40-108);
* `geothermal_report` models the two diagnostic `print` calls (lines 77, 80).
-/

namespace Geothermal

/-- `numpy.arange start stop step` for a positive rational step: the values
`start + step*k` for `k = 0, 1, ...`, with `⌈(stop-start)/step⌉` elements. -/
def arange (start stop step : ℚ) : List ℚ :=
  (List.range (⌈(stop - start) / step⌉.toNat)).map (fun (k : ℕ) => start + step * (k : ℚ))

/-- `numpy.linspace a b num`: `num` evenly spaced values from `a` to `b`,
endpoints included (entry `k` is `a + (b-a)*k/(num-1)`). -/
def linspace (a b : ℚ) (num : ℕ) : List ℚ :=
  (List.range num).map (fun (k : ℕ) => a + (b - a) * (k : ℚ) / ((num : ℚ) - 1))

/-- Line 62: `s = (dt*D)/(dz**2*p*cT)`, the diffusion number. -/
def diffusionNumber (dt D dz p cT : ℚ) : ℚ := (dt * D) / (dz ^ 2 * p * cT)

/-- Line 63: `vn = (dt*D)/(dz**2)`, the von Neumann coefficient. -/
def vonNeumann (dt D dz : ℚ) : ℚ := (dt * D) / dz ^ 2

/-- Line 64: `c = dt*(u/dz)`, the courant number. -/
def courant (dt u dz : ℚ) : ℚ := dt * (u / dz)

/-- The stability gate of lines 76-81: the run proceeds iff neither
`c**2 > 2*vn` nor `vn + c/4 > 0.5` holds. -/
def gateAccepts (vn c : ℚ) : Bool :=
  !decide (c ^ 2 > 2 * vn) && !decide (vn + c / 4 > 1 / 2)

/-- Lines 85-93: the `nodes × nodes` transport operator `A`.  The source first
zero-initialises `A`, then for `i in range(2, nodes-1)` writes the four stencil
entries of row `i`, then writes `A[0,0] = 1`, `A[1,1] = 1`, `A[-1,-1] = 1`.
The three diagonal writes touch rows the loop never writes, so the matrix is
described entry-wise: boundary diagonal entries are 1, interior rows
(`2 ≤ i < n-1`) carry the four stencil coefficients, everything else is 0. -/
def Amat (n : ℕ) (s c : ℚ) (i j : ℕ) : ℚ :=
  if (i = 0 ∧ j = 0) ∨ (i = 1 ∧ j = 1) ∨ (i = n - 1 ∧ j = n - 1) then 1
  else if 2 ≤ i ∧ i < n - 1 then
    if j = i + 1 then s - 3 / 8 * c
    else if j = i then 1 - 2 * s - 3 / 8 * c
    else if j = i - 1 then s + 7 / 8 * c
    else if j = i - 2 then -1 / 8 * c
    else 0
  else 0

/-- The sum of the entries of row `i` of the transport operator. -/
def rowSum (n : ℕ) (s c : ℚ) (i : ℕ) : ℚ := ∑ j ∈ Finset.range n, Amat n s c i j

/-- Line 103: `np.dot(A, T)` for an `n × n` operator, entry `i` being
`∑ j, A[i,j] * T[j]`. -/
def matVec (n : ℕ) (A : ℕ → ℕ → ℚ) (v : List ℚ) : List ℚ :=
  (List.range n).map (fun i => ∑ j ∈ Finset.range n, A i j * v.getD j 0)

/-- Line 105: the slice assignment `T[1:3] = S`, writing the target
temperature into indices 1 and 2. -/
def pin (S : ℚ) (v : List ℚ) : List ℚ := (v.set 1 S).set 2 S

/-- One body of the `while` loop (lines 103-105): `new_T = np.dot(A, T)`;
`T[:] = new_T*1` (elementwise multiplication by one); `T[1:3] = S`. -/
def stepOnce (A : ℕ → ℕ → ℚ) (S : ℚ) (n : ℕ) (v : List ℚ) : List ℚ :=
  pin S ((matVec n A v).map (fun x => x * 1))

/-- Lines 100-106: `time = 0; while time <= totaltime: ...; time += dt`.
The source only ever runs this loop with the fixed positive `dt = 0.1`; the
`0 < dt` conjunct in the guard makes the recursion well-founded and holds on
every call the program makes. -/
def march (A : ℕ → ℕ → ℚ) (S : ℚ) (n : ℕ) (v : List ℚ) (time totaltime dt : ℚ) :
    List ℚ :=
  if h : time ≤ totaltime ∧ 0 < dt then
    march A S n (stepOnce A S n v) (time + dt) totaltime dt
  else v
termination_by (⌈(totaltime - time) / dt⌉ + 1).toNat
decreasing_by
  obtain ⟨h1, h2⟩ := h
  have hdt : dt ≠ 0 := ne_of_gt h2
  have key : (totaltime - (time + dt)) / dt = (totaltime - time) / dt - 1 := by
    field_simp
    ring
  have hy : (0 : ℚ) ≤ (totaltime - time) / dt := div_nonneg (by linarith) h2.le
  have hc : (0 : ℤ) ≤ ⌈(totaltime - time) / dt⌉ := Int.ceil_nonneg hy
  rw [key, Int.ceil_sub_one]
  omega

/-- The number of iterations the `while` loop of lines 100-106 performs:
starting at `time` and stepping by `dt`, the guard `time ≤ totaltime` is true
`⌊(totaltime - time)/dt⌋ + 1` times (and the loop does not run at all when the
guard is initially false). -/
def countSteps (time totaltime dt : ℚ) : ℕ :=
  if time ≤ totaltime ∧ 0 < dt then (⌊(totaltime - time) / dt⌋ + 1).toNat else 0

/-! ### The fixed constants of `geothermal_model` (lines 45-64, 97-101) -/

/-- Line 45: `velocity = float(reinjection_rate)/60/60/0.5`. -/
def velocityOf (reinjection_rate : ℚ) : ℚ := reinjection_rate / 60 / 60 / (1 / 2)

/-- Line 49: `dz = 10`, the spacing between depth nodes. -/
def dz : ℚ := 10

/-- Line 50: `z = np.arange(1000, 1500, dz)`, the depth grid. -/
def z : List ℚ := arange 1000 1500 dz

/-- Line 51: `nodes = len(z)`. -/
def nodes : ℕ := z.length

/-- Line 52: `T = np.linspace(150, 250, num=nodes)`, the initial linear
temperature ramp. -/
def T : List ℚ := linspace 150 250 nodes

/-- Line 56: `p = 1.00`, the fluid density. -/
def p : ℚ := 1

/-- Line 57: `cT = 4.186`, the specific heat. -/
def cT : ℚ := 4186 / 1000

/-- Line 58: `D = 0.6`, the thermal conductivity. -/
def D : ℚ := 6 / 10

/-- Line 59: `dt = 0.1`, the time step. -/
def dt : ℚ := 1 / 10

/-- Line 101: `totaltime = 10`, the fixed simulation horizon. -/
def totaltime : ℚ := 10

/-- Line 62 instantiated at the model's constants. -/
def s : ℚ := diffusionNumber dt D dz p cT

/-- Line 63 instantiated at the model's constants. -/
def vn : ℚ := vonNeumann dt D dz

/-- Line 64 instantiated at the model's constants: the courant number of a
given reinjection rate. -/
def cOf (rate : ℚ) : ℚ := courant dt (velocityOf rate) dz

/-- The run for `rate` passes the stability gate of lines 76-81: neither
rejection branch fires. -/
def accepts (rate : ℚ) : Prop :=
  ¬(cOf rate ^ 2 > 2 * vn) ∧ ¬(vn + cOf rate / 4 > 1 / 2)

instance (rate : ℚ) : Decidable (accepts rate) := by unfold accepts; infer_instance

/-- Lines 40-108: the function `geothermal_model`.  Returns `none` when a
stability check fails (lines 76-81) and otherwise the final temperature
profile paired with the depth grid (line 108). -/
def geothermal_model (reinjection_rate temperature : ℚ) : Option (List ℚ × List ℚ) :=
  if cOf reinjection_rate ^ 2 > 2 * vn then none
  else if vn + cOf reinjection_rate / 4 > 1 / 2 then none
  else some (march (Amat nodes s (cOf reinjection_rate)) temperature nodes T 0 totaltime dt, z)

/-- The two shapes of diagnostic the stability check prints: which condition
failed, together with the left and right numeric values shown. -/
inductive Unstable where
  | cond1 (lhs rhs : ℚ) : Unstable
  | cond2 (lhs rhs : ℚ) : Unstable
deriving DecidableEq

/-- Lines 76-81 including the `print` diagnostics: condition 1 prints the pair
`(c**2, 2*s)` (line 77) and condition 2 prints the pair `(s + c/4, 0.5)`
(line 80) even though the conditions tested use `vn`, not `s`. -/
def geothermal_report (reinjection_rate : ℚ) : Option Unstable :=
  if cOf reinjection_rate ^ 2 > 2 * vn then
    some (Unstable.cond1 (cOf reinjection_rate ^ 2) (2 * s))
  else if vn + cOf reinjection_rate / 4 > 1 / 2 then
    some (Unstable.cond2 (s + cOf reinjection_rate / 4) (1 / 2))
  else none

/-! ### Basic facts about the grid and the initial profile -/

theorem arange_length (start stop step : ℚ) :
    (arange start stop step).length = ⌈(stop - start) / step⌉.toNat := by
  unfold arange
  rw [List.length_map, List.length_range]

theorem nodes_eq : nodes = 50 := by
  unfold nodes z
  rw [arange_length]
  unfold dz
  have h50 : ⌈((1500 : ℚ) - 1000) / 10⌉ = 50 := by norm_num
  rw [h50]
  rfl

theorem getD_map_range (f : ℕ → ℚ) (n i : ℕ) (d : ℚ) (h : i < n) :
    ((List.range n).map f).getD i d = f i := by
  simp [List.getD_eq_getElem?_getD, List.getElem?_map, List.getElem?_range h]

theorem linspace_getD (a b : ℚ) (num i : ℕ) (d : ℚ) (h : i < num) :
    (linspace a b num).getD i d = a + (b - a) * (i : ℚ) / ((num : ℚ) - 1) := by
  unfold linspace
  exact getD_map_range _ num i d h

theorem T_length : T.length = nodes := by
  unfold T linspace
  rw [List.length_map, List.length_range]

theorem T_getD_zero : T.getD 0 0 = 150 := by
  unfold T
  rw [nodes_eq, linspace_getD _ _ _ _ _ (by norm_num)]
  norm_num

theorem T_getD_last : T.getD 49 0 = 250 := by
  unfold T
  rw [nodes_eq, linspace_getD _ _ _ _ _ (by norm_num)]
  norm_num

/-! ### Row structure of the transport operator -/

theorem Amat_row_zero (n : ℕ) (s c : ℚ) (j : ℕ) :
    Amat n s c 0 j = if j = 0 then 1 else 0 := by
  unfold Amat
  by_cases hj : j = 0
  · subst hj
    rw [if_pos (Or.inl ⟨rfl, rfl⟩), if_pos rfl]
  · have hg : ¬((0 = 0 ∧ j = 0) ∨ (0 = 1 ∧ j = 1) ∨ (0 = n - 1 ∧ j = n - 1)) := by
      omega
    have h4 : ¬(2 ≤ 0 ∧ 0 < n - 1) := by omega
    rw [if_neg hg, if_neg h4, if_neg hj]

theorem Amat_row_one (n : ℕ) (s c : ℚ) (j : ℕ) :
    Amat n s c 1 j = if j = 1 then 1 else 0 := by
  unfold Amat
  by_cases hj : j = 1
  · subst hj
    rw [if_pos (Or.inr (Or.inl ⟨rfl, rfl⟩)), if_pos rfl]
  · have hg : ¬((1 = 0 ∧ j = 0) ∨ (1 = 1 ∧ j = 1) ∨ (1 = n - 1 ∧ j = n - 1)) := by
      omega
    have h4 : ¬(2 ≤ 1 ∧ 1 < n - 1) := by omega
    rw [if_neg hg, if_neg h4, if_neg hj]

theorem Amat_row_last (n : ℕ) (s c : ℚ) (j : ℕ) :
    Amat n s c (n - 1) j = if j = n - 1 then 1 else 0 := by
  unfold Amat
  by_cases hj : j = n - 1
  · subst hj
    rw [if_pos (Or.inr (Or.inr ⟨rfl, rfl⟩)), if_pos rfl]
  · have hg : ¬((n - 1 = 0 ∧ j = 0) ∨ (n - 1 = 1 ∧ j = 1) ∨
        (n - 1 = n - 1 ∧ j = n - 1)) := by omega
    have h4 : ¬(2 ≤ n - 1 ∧ n - 1 < n - 1) := by omega
    rw [if_neg hg, if_neg h4, if_neg hj]

theorem Amat_interior (n : ℕ) (s c : ℚ) (k j : ℕ) (h : k + 2 < n - 1) :
    Amat n s c (k + 2) j =
      if j = k + 3 then s - 3 / 8 * c
      else if j = k + 2 then 1 - 2 * s - 3 / 8 * c
      else if j = k + 1 then s + 7 / 8 * c
      else if j = k then -1 / 8 * c
      else 0 := by
  unfold Amat
  have h1 : ¬((k + 2 = 0 ∧ j = 0) ∨ (k + 2 = 1 ∧ j = 1) ∨
      (k + 2 = n - 1 ∧ j = n - 1)) := by omega
  have h2 : 2 ≤ k + 2 ∧ k + 2 < n - 1 := ⟨by omega, h⟩
  have e1 : k + 2 + 1 = k + 3 := by omega
  have e2 : k + 2 - 1 = k + 1 := by omega
  have e3 : k + 2 - 2 = k := by omega
  rw [if_neg h1, if_pos h2, e1, e2, e3]

/-! ### The matrix-vector product and the pinning assignment -/

theorem matVec_length (n : ℕ) (A : ℕ → ℕ → ℚ) (v : List ℚ) :
    (matVec n A v).length = n := by
  unfold matVec
  rw [List.length_map, List.length_range]

theorem matVec_getD (n : ℕ) (A : ℕ → ℕ → ℚ) (v : List ℚ) (i : ℕ) (h : i < n) :
    (matVec n A v).getD i 0 = ∑ j ∈ Finset.range n, A i j * v.getD j 0 := by
  unfold matVec
  exact getD_map_range _ n i 0 h

theorem pin_length (S : ℚ) (v : List ℚ) : (pin S v).length = v.length := by
  unfold pin
  rw [List.length_set, List.length_set]

theorem pin_getD_one (S : ℚ) (v : List ℚ) (h : 1 < v.length) :
    (pin S v).getD 1 0 = S := by
  unfold pin
  rw [List.getD_eq_getElem?_getD, List.getElem?_set_ne (by omega),
    List.getElem?_set_self (by omega)]
  rfl

theorem pin_getD_two (S : ℚ) (v : List ℚ) (h : 2 < v.length) :
    (pin S v).getD 2 0 = S := by
  unfold pin
  rw [List.getD_eq_getElem?_getD, List.getElem?_set_self (by simp [h])]
  rfl

theorem pin_getD_other (S : ℚ) (v : List ℚ) (j : ℕ) (h1 : j ≠ 1) (h2 : j ≠ 2) :
    (pin S v).getD j 0 = v.getD j 0 := by
  unfold pin
  rw [List.getD_eq_getElem?_getD, List.getElem?_set_ne (by omega),
    List.getElem?_set_ne (by omega), List.getD_eq_getElem?_getD]

theorem map_mul_one (v : List ℚ) : v.map (fun x => x * 1) = v := by
  simp

theorem stepOnce_eq (A : ℕ → ℕ → ℚ) (S : ℚ) (n : ℕ) (v : List ℚ) :
    stepOnce A S n v = pin S (matVec n A v) := by
  unfold stepOnce
  rw [map_mul_one]

theorem stepOnce_length (A : ℕ → ℕ → ℚ) (S : ℚ) (n : ℕ) (v : List ℚ) :
    (stepOnce A S n v).length = n := by
  rw [stepOnce_eq, pin_length, matVec_length]

theorem stepOnce_getD_one (A : ℕ → ℕ → ℚ) (S : ℚ) (n : ℕ) (v : List ℚ)
    (h : 3 ≤ n) : (stepOnce A S n v).getD 1 0 = S := by
  rw [stepOnce_eq]
  exact pin_getD_one S _ (by rw [matVec_length]; omega)

theorem stepOnce_getD_two (A : ℕ → ℕ → ℚ) (S : ℚ) (n : ℕ) (v : List ℚ)
    (h : 3 ≤ n) : (stepOnce A S n v).getD 2 0 = S := by
  rw [stepOnce_eq]
  exact pin_getD_two S _ (by rw [matVec_length]; omega)

/-- The identity row at index 0 preserves entry 0 across a step: combined with
`pin` only writing indices 1 and 2, entry 0 never changes. -/
theorem stepOnce_getD_zero (n : ℕ) (sc cc S : ℚ) (v : List ℚ) (h : 0 < n) :
    (stepOnce (Amat n sc cc) S n v).getD 0 0 = v.getD 0 0 := by
  rw [stepOnce_eq, pin_getD_other S _ 0 (by omega) (by omega),
    matVec_getD n _ v 0 h]
  rw [Finset.sum_eq_single 0]
  · rw [Amat_row_zero, if_pos rfl, one_mul]
  · intro b _ hb
    rw [Amat_row_zero, if_neg hb, zero_mul]
  · intro h0
    exact absurd (Finset.mem_range.mpr h) h0

/-- The identity row at the last index preserves the last entry across a
step (for `4 ≤ n` the last index is not among the pinned indices 1, 2). -/
theorem stepOnce_getD_last (n : ℕ) (sc cc S : ℚ) (v : List ℚ) (h : 4 ≤ n) :
    (stepOnce (Amat n sc cc) S n v).getD (n - 1) 0 = v.getD (n - 1) 0 := by
  rw [stepOnce_eq, pin_getD_other S _ (n - 1) (by omega) (by omega),
    matVec_getD n _ v (n - 1) (by omega)]
  rw [Finset.sum_eq_single (n - 1)]
  · rw [Amat_row_last, if_pos rfl, one_mul]
  · intro b _ hb
    rw [Amat_row_last, if_neg hb, zero_mul]
  · intro h0
    exact absurd (Finset.mem_range.mpr (by omega)) h0

/-! ### Iterated steps -/

theorem iter_length (A : ℕ → ℕ → ℚ) (S : ℚ) (n : ℕ) (v : List ℚ) (k : ℕ)
    (h : v.length = n) : ((stepOnce A S n)^[k] v).length = n := by
  induction k with
  | zero => exact h
  | succ m _ => rw [Function.iterate_succ_apply', stepOnce_length]

theorem iter_getD_one (A : ℕ → ℕ → ℚ) (S : ℚ) (n : ℕ) (v : List ℚ) (k : ℕ)
    (hn : 3 ≤ n) (hk : 1 ≤ k) : ((stepOnce A S n)^[k] v).getD 1 0 = S := by
  obtain ⟨m, rfl⟩ : ∃ m, k = m + 1 := ⟨k - 1, by omega⟩
  rw [Function.iterate_succ_apply', stepOnce_getD_one _ _ _ _ hn]

theorem iter_getD_two (A : ℕ → ℕ → ℚ) (S : ℚ) (n : ℕ) (v : List ℚ) (k : ℕ)
    (hn : 3 ≤ n) (hk : 1 ≤ k) : ((stepOnce A S n)^[k] v).getD 2 0 = S := by
  obtain ⟨m, rfl⟩ : ∃ m, k = m + 1 := ⟨k - 1, by omega⟩
  rw [Function.iterate_succ_apply', stepOnce_getD_two _ _ _ _ hn]

theorem iter_getD_zero (n : ℕ) (sc cc S : ℚ) (v : List ℚ) (k : ℕ) (h : 0 < n) :
    ((stepOnce (Amat n sc cc) S n)^[k] v).getD 0 0 = v.getD 0 0 := by
  induction k with
  | zero => rfl
  | succ m ih => rw [Function.iterate_succ_apply', stepOnce_getD_zero _ _ _ _ _ h, ih]

theorem iter_getD_last (n : ℕ) (sc cc S : ℚ) (v : List ℚ) (k : ℕ) (h : 4 ≤ n) :
    ((stepOnce (Amat n sc cc) S n)^[k] v).getD (n - 1) 0 = v.getD (n - 1) 0 := by
  induction k with
  | zero => rfl
  | succ m ih => rw [Function.iterate_succ_apply', stepOnce_getD_last _ _ _ _ _ h, ih]

/-! ### The while loop performs `countSteps` iterations -/

theorem countSteps_ne_zero (time totaltime dt : ℚ) (h1 : time ≤ totaltime)
    (h2 : 0 < dt) : countSteps time totaltime dt ≠ 0 := by
  have hy : (0 : ℚ) ≤ (totaltime - time) / dt := div_nonneg (by linarith) h2.le
  have hfl : (0 : ℤ) ≤ ⌊(totaltime - time) / dt⌋ := Int.floor_nonneg.mpr hy
  unfold countSteps
  rw [if_pos ⟨h1, h2⟩]
  omega

theorem countSteps_succ (time totaltime dt : ℚ) (h1 : time ≤ totaltime)
    (h2 : 0 < dt) :
    countSteps time totaltime dt = countSteps (time + dt) totaltime dt + 1 := by
  have hdt : dt ≠ 0 := ne_of_gt h2
  have hy : (0 : ℚ) ≤ (totaltime - time) / dt := div_nonneg (by linarith) h2.le
  have hfl : (0 : ℤ) ≤ ⌊(totaltime - time) / dt⌋ := Int.floor_nonneg.mpr hy
  have key : (totaltime - (time + dt)) / dt = (totaltime - time) / dt - 1 := by
    field_simp
    ring
  by_cases h3 : time + dt ≤ totaltime
  · unfold countSteps
    rw [if_pos ⟨h1, h2⟩, if_pos ⟨h3, h2⟩, key, Int.floor_sub_one]
    omega
  · have hlt : (totaltime - time) / dt < 1 := by
      rw [div_lt_one h2]
      linarith
    have hz : ⌊(totaltime - time) / dt⌋ = 0 :=
      Int.floor_eq_zero_iff.mpr (Set.mem_Ico.mpr ⟨hy, hlt⟩)
    unfold countSteps
    rw [if_pos ⟨h1, h2⟩, if_neg (fun hc => h3 hc.1), hz]
    rfl

theorem march_eq_iterate (A : ℕ → ℕ → ℚ) (S : ℚ) (n : ℕ) :
    ∀ (k : ℕ) (v : List ℚ) (time totaltime dt : ℚ),
      countSteps time totaltime dt = k →
      march A S n v time totaltime dt = (stepOnce A S n)^[k] v := by
  intro k
  induction k with
  | zero =>
    intro v time totaltime dt hk
    rw [march]
    split
    · rename_i hgd
      exact absurd hk (countSteps_ne_zero _ _ _ hgd.1 hgd.2)
    · rfl
  | succ m ih =>
    intro v time totaltime dt hk
    rw [march]
    split
    · rename_i hgd
      rw [Function.iterate_succ_apply]
      apply ih
      have := countSteps_succ time totaltime dt hgd.1 hgd.2
      omega
    · rename_i hgd
      unfold countSteps at hk
      rw [if_neg hgd] at hk
      exact absurd hk.symm (Nat.succ_ne_zero m)

/-! ### Concrete values of the model's stability coefficients -/

theorem vn_eq : vn = 3 / 5000 := by
  norm_num [vn, vonNeumann, dt, D, dz]

theorem s_eq : s = 3 / 20930 := by
  norm_num [s, diffusionNumber, dt, D, dz, p, cT]

theorem cOf_eq (rate : ℚ) : cOf rate = rate / 180000 := by
  unfold cOf courant velocityOf dt dz
  ring

theorem accepts_zero : accepts 0 := by
  unfold accepts
  rw [cOf_eq, vn_eq]
  norm_num

theorem countSteps_model : countSteps 0 totaltime dt = 101 := by
  unfold countSteps totaltime dt
  rw [if_pos ⟨by norm_num, by norm_num⟩]
  have h100 : ⌊((10 : ℚ) - 0) / (1 / 10)⌋ = 100 := by norm_num
  rw [h100]
  rfl

/-- On an accepted run, `geothermal_model` returns the while loop's result:
101 applications of the per-step transformation to the initial ramp, paired
with the depth grid. -/
theorem geothermal_model_accept (rate temperature : ℚ) (h : accepts rate) :
    geothermal_model rate temperature =
      some ((stepOnce (Amat nodes s (cOf rate)) temperature nodes)^[101] T, z) := by
  obtain ⟨h1, h2⟩ := h
  unfold geothermal_model
  rw [if_neg h1, if_neg h2,
    march_eq_iterate _ _ _ 101 T 0 totaltime dt countSteps_model]

/-! ### The stability gate as a predicate -/

theorem gateAccepts_eq_true_iff (a b : ℚ) :
    gateAccepts a b = true ↔ ¬(b ^ 2 > 2 * a) ∧ ¬(a + b / 4 > 1 / 2) := by
  unfold gateAccepts
  simp

theorem gateAccepts_eq_false_iff (a b : ℚ) :
    gateAccepts a b = false ↔ (b ^ 2 > 2 * a) ∨ (a + b / 4 > 1 / 2) := by
  rw [← Bool.not_eq_true, gateAccepts_eq_true_iff]
  tauto

/-- The rejection branches of `geothermal_model` (lines 76-81) are exactly
the complement of `gateAccepts` at the model's coefficients. -/
theorem geothermal_model_none_iff_gate (rate temperature : ℚ) :
    geothermal_model rate temperature = none ↔
      gateAccepts vn (cOf rate) = false := by
  rw [gateAccepts_eq_false_iff]
  unfold geothermal_model
  split_ifs with h1 h2
  · exact iff_of_true rfl (Or.inl h1)
  · exact iff_of_true rfl (Or.inr h2)
  · exact iff_of_false (by simp) (by tauto)

/-! ### Claim theorems -/

/-- C7: for every grid size, the boundary rows of the transport operator —
row 0, row 1, and the last row — are exact identity rows: coefficient 1 on
the diagonal and 0 in every other column (this holds for the operator as
built, independently of the gate verdict under which it is used). -/
theorem C7_boundary_rows_identity (n : ℕ) (a b : ℚ) (j : ℕ) :
    Amat n a b 0 j = (if j = 0 then 1 else 0) ∧
    Amat n a b 1 j = (if j = 1 then 1 else 0) ∧
    Amat n a b (n - 1) j = (if j = n - 1 then 1 else 0) :=
  ⟨Amat_row_zero n a b j, Amat_row_one n a b j, Amat_row_last n a b j⟩

/-- C3: every interior row `i = k + 2` with `2 ≤ i ≤ 48 = N - 2` of the
50-node transport operator has exactly the four stencil entries of
lines 87-90 — `s - (3/8)c` on column `i+1`, `1 - 2s - (3/8)c` on column `i`,
`s + (7/8)c` on column `i-1`, `-(1/8)c` on column `i-2` — and 0 in every
other column. -/
theorem C3_interior_stencil (a b : ℚ) (k j : ℕ) (hk : k ≤ 46) :
    Amat 50 a b (k + 2) j =
      if j = k + 3 then a - 3 / 8 * b
      else if j = k + 2 then 1 - 2 * a - 3 / 8 * b
      else if j = k + 1 then a + 7 / 8 * b
      else if j = k then -1 / 8 * b
      else 0 :=
  Amat_interior 50 a b k j (by omega)

theorem C3_interior_stencil_witness :
    (0 : ℕ) ≤ 46 ∧ Amat 50 (1 / 3) (1 / 7) (0 + 2) 3 =
      (if (3 : ℕ) = 0 + 3 then (1 / 3 : ℚ) - 3 / 8 * (1 / 7)
       else if (3 : ℕ) = 0 + 2 then 1 - 2 * (1 / 3) - 3 / 8 * (1 / 7)
       else if (3 : ℕ) = 0 + 1 then 1 / 3 + 7 / 8 * (1 / 7)
       else if (3 : ℕ) = 0 then -1 / 8 * (1 / 7)
       else 0) :=
  ⟨by omega, C3_interior_stencil (1 / 3) (1 / 7) 0 3 (by omega)⟩

/-- C8: every interior row `k + 2` (with `2 ≤ k + 2 ≤ 48`) of the 50-node
transport operator sums to exactly 1, for all values of the diffusion
number and the courant number: the four stencil coefficients satisfy
`(s - 3/8 c) + (1 - 2s - 3/8 c) + (s + 7/8 c) + (-1/8 c) = 1`. -/
theorem C8_interior_row_sum_one (a b : ℚ) (k : ℕ) (hk : k ≤ 46) :
    rowSum 50 a b (k + 2) = 1 := by
  unfold rowSum
  have hA : ∀ j ∈ Finset.range 50, Amat 50 a b (k + 2) j =
      (if j = k + 3 then a - 3 / 8 * b else 0) +
      ((if j = k + 2 then 1 - 2 * a - 3 / 8 * b else 0) +
       ((if j = k + 1 then a + 7 / 8 * b else 0) +
        (if j = k then -1 / 8 * b else 0))) := by
    intro j _
    rw [Amat_interior 50 a b k j (by omega)]
    split_ifs with h1 h2 h3 h4 <;> first | (exfalso; omega) | ring
  rw [Finset.sum_congr rfl hA, Finset.sum_add_distrib, Finset.sum_add_distrib,
    Finset.sum_add_distrib, Finset.sum_ite_eq' (Finset.range 50) (k + 3),
    Finset.sum_ite_eq' (Finset.range 50) (k + 2),
    Finset.sum_ite_eq' (Finset.range 50) (k + 1),
    Finset.sum_ite_eq' (Finset.range 50) k,
    if_pos (Finset.mem_range.mpr (by omega : k + 3 < 50)),
    if_pos (Finset.mem_range.mpr (by omega : k + 2 < 50)),
    if_pos (Finset.mem_range.mpr (by omega : k + 1 < 50)),
    if_pos (Finset.mem_range.mpr (by omega : k < 50))]
  ring

theorem C8_interior_row_sum_one_witness :
    (0 : ℕ) ≤ 46 ∧ rowSum 50 (1 / 3) (1 / 7) (0 + 2) = 1 :=
  ⟨by omega, C8_interior_row_sum_one (1 / 3) (1 / 7) 0 (by omega)⟩

/-- C4: the time-marching loop of lines 100-106, started at `time = 0` with
the fixed horizon `totaltime = 10` and time step `dt = 0.1`, executes its
body exactly `10 / 0.1 + 1 = 101` times — one matrix-vector product per
step — for every operator, target temperature, grid size and start profile;
the count is the exact-arithmetic value `⌊totaltime/dt⌋ + 1` and is
deterministic. -/
theorem C4_loop_runs_101_steps : countSteps 0 totaltime dt = 101 ∧
    ∀ (A : ℕ → ℕ → ℚ) (S : ℚ) (n : ℕ) (v : List ℚ),
      march A S n v 0 totaltime dt = (stepOnce A S n)^[101] v :=
  ⟨countSteps_model, fun A S n v =>
    march_eq_iterate A S n 101 v 0 totaltime dt countSteps_model⟩

/-- C2: the simulator returns no profile exactly when the stability gate
rejects — `courant² > 2·vn` or `vn + courant/4 > 0.5`, with
`vn = (dt · conductivity)/dz²` and `courant = dt · (velocity/dz)` — and on
an accepted run it returns a temperature profile whose length equals the
grid's node count. -/
theorem C2_none_iff_reject_and_length (rate temperature : ℚ) :
    (geothermal_model rate temperature = none ↔
      cOf rate ^ 2 > 2 * vn ∨ vn + cOf rate / 4 > 1 / 2) ∧
    ((geothermal_model rate temperature).map (fun r => r.1.length) =
      if cOf rate ^ 2 > 2 * vn ∨ vn + cOf rate / 4 > 1 / 2 then none
      else some nodes) := by
  by_cases h1 : cOf rate ^ 2 > 2 * vn
  · constructor
    · unfold geothermal_model
      rw [if_pos h1]
      exact iff_of_true rfl (Or.inl h1)
    · unfold geothermal_model
      rw [if_pos h1, if_pos (Or.inl h1)]
      rfl
  · by_cases h2 : vn + cOf rate / 4 > 1 / 2
    · constructor
      · unfold geothermal_model
        rw [if_neg h1, if_pos h2]
        exact iff_of_true rfl (Or.inr h2)
      · unfold geothermal_model
        rw [if_neg h1, if_pos h2, if_pos (Or.inr h2)]
        rfl
    · have hor : ¬(cOf rate ^ 2 > 2 * vn ∨ vn + cOf rate / 4 > 1 / 2) := by tauto
      rw [geothermal_model_accept rate temperature ⟨h1, h2⟩]
      constructor
      · exact iff_of_false (by simp) hor
      · rw [if_neg hor, Option.map_some']
        rw [iter_length _ _ _ _ _ T_length]

/-- C9: on every accepted run the returned profile carries the target
reinjection temperature exactly at indices 1 and 2: the slice assignment
`T[1:3] = S` of line 105 writes those two indices as the last operation of
every time step. -/
theorem C9_returned_profile_pinned_at_1_2 (rate temperature : ℚ)
    (h : accepts rate) :
    (geothermal_model rate temperature).map
      (fun r => (r.1.getD 1 0, r.1.getD 2 0)) = some (temperature, temperature) := by
  rw [geothermal_model_accept rate temperature h, Option.map_some']
  rw [iter_getD_one _ _ _ _ _ (by rw [nodes_eq]; omega) (by omega),
    iter_getD_two _ _ _ _ _ (by rw [nodes_eq]; omega) (by omega)]

theorem C9_returned_profile_pinned_at_1_2_witness : accepts 0 ∧
    (geothermal_model 0 50).map
      (fun r => (r.1.getD 1 0, r.1.getD 2 0)) = some (50, 50) :=
  ⟨accepts_zero, C9_returned_profile_pinned_at_1_2 0 50 accepts_zero⟩

/-- C10: on every accepted run the returned profile still carries the
initial ramp values at the two unpinned boundary nodes: entry 0 equals the
shallow ramp value 150 and the last entry (index `nodes - 1`) equals the
deep ramp value 250 — their operator rows are identity rows and the
per-step pinning writes only indices 1 and 2, so no time step modifies
either entry. -/
theorem C10_boundary_entries_keep_ramp (rate temperature : ℚ)
    (h : accepts rate) :
    (geothermal_model rate temperature).map
      (fun r => (r.1.getD 0 0, r.1.getD (nodes - 1) 0)) = some (150, 250) := by
  rw [geothermal_model_accept rate temperature h, Option.map_some']
  have h49 : nodes - 1 = 49 := by rw [nodes_eq]
  rw [iter_getD_zero _ _ _ _ _ _ (by rw [nodes_eq]; omega), T_getD_zero,
    iter_getD_last _ _ _ _ _ _ (by rw [nodes_eq]; omega), h49, T_getD_last]

theorem C10_boundary_entries_keep_ramp_witness : accepts 0 ∧
    (geothermal_model 0 50).map
      (fun r => (r.1.getD 0 0, r.1.getD (nodes - 1) 0)) = some (150, 250) :=
  ⟨accepts_zero, C10_boundary_entries_keep_ramp 0 50 accepts_zero⟩

/-- C1: the claim says the two lowest-index entries (indices 0 and 1) of the
profile equal the target reinjection temperature after every step; the code
instead pins indices 1 and 2 (`T[1:3] = S`, line 105), so on the accepted
run with rate 0 and target 50 the returned profile has entry 0 = 150 (the
untouched initial ramp value, preserved by the identity row) while entries
1 and 2 equal 50 — and 150 ≠ 50, contradicting the claim at index 0. -/
theorem C1_entry0_not_pinned_at_rate0 :
    (geothermal_model 0 50).map
      (fun r => (r.1.getD 0 0, r.1.getD 1 0, r.1.getD 2 0)) =
      some (150, 50, 50) ∧ (150 : ℚ) ≠ 50 := by
  constructor
  · rw [geothermal_model_accept 0 50 accepts_zero, Option.map_some']
    rw [iter_getD_zero _ _ _ _ _ _ (by rw [nodes_eq]; omega), T_getD_zero,
      iter_getD_one _ _ _ _ _ (by rw [nodes_eq]; omega) (by omega),
      iter_getD_two _ _ _ _ _ (by rw [nodes_eq]; omega) (by omega)]
  · norm_num

/-- C5 (counterexample): at reinjection rate 7200 the courant number is
`1/25`, condition 1 fires (`(1/25)² = 1/625 > 2·vn = 3/2500`), and the
diagnostic of line 77 reports the pair `(1/625, 2·s) = (1/625, 3/10465)` —
but `3/10465 ≠ 2·vn = 3/2500`, so the solver does not report the pair
`(courant², 2·vn)` the claim states. -/
theorem C5_report_not_vn_at_7200 :
    geothermal_report 7200 = some (Unstable.cond1 (1 / 625) (3 / 10465)) ∧
    (3 / 10465 : ℚ) ≠ 2 * vn := by
  have hc : cOf (7200 : ℚ) = 1 / 25 := by rw [cOf_eq]; norm_num
  constructor
  · unfold geothermal_report
    rw [hc, s_eq, vn_eq, if_pos (by norm_num)]
    norm_num
  · rw [vn_eq]
    norm_num

/-- C5 (amended): when a stability condition fails the solver reports, for
condition 1, the pair `(courant², 2·s)` — with `s` the diffusion number,
not the von Neumann number the condition was checked against — and, for
condition 2 (only reachable when condition 1 does not hold), the
pair `(s + courant/4, 0.5)`; this characterises the diagnostic of
lines 76-81 exactly. -/
theorem C5_report_values (rate lhs rhs : ℚ) :
    (geothermal_report rate = some (Unstable.cond1 lhs rhs) ↔
      cOf rate ^ 2 > 2 * vn ∧ lhs = cOf rate ^ 2 ∧ rhs = 2 * s) ∧
    (geothermal_report rate = some (Unstable.cond2 lhs rhs) ↔
      ¬(cOf rate ^ 2 > 2 * vn) ∧ vn + cOf rate / 4 > 1 / 2 ∧
        lhs = s + cOf rate / 4 ∧ rhs = 1 / 2) := by
  unfold geothermal_report
  by_cases h1 : cOf rate ^ 2 > 2 * vn
  · rw [if_pos h1]
    constructor
    · constructor
      · intro h
        injection h with h'
        injection h' with ha hb
        exact ⟨h1, ha.symm, hb.symm⟩
      · rintro ⟨-, ha, hb⟩
        rw [ha, hb]
    · constructor
      · intro h
        injection h with h'
        exact Unstable.noConfusion h'
      · rintro ⟨hna, -⟩
        exact absurd h1 hna
  · rw [if_neg h1]
    by_cases h2 : vn + cOf rate / 4 > 1 / 2
    · rw [if_pos h2]
      constructor
      · constructor
        · intro h
          injection h with h'
          exact Unstable.noConfusion h'
        · rintro ⟨hc1, -⟩
          exact absurd hc1 h1
      · constructor
        · intro h
          injection h with h'
          injection h' with ha hb
          exact ⟨h1, h2, ha.symm, hb.symm⟩
        · rintro ⟨-, -, ha, hb⟩
          rw [ha, hb]
    · rw [if_neg h2]
      constructor
      · constructor
        · intro h
          exact Option.noConfusion h
        · rintro ⟨hc1, -, -⟩
          exact absurd hc1 h1
      · constructor
        · intro h
          exact Option.noConfusion h
        · rintro ⟨-, hc2, -, -⟩
          exact absurd hc2 h2

/-- C6 (counterexample): with the model's grid (`dz = 10`, `dt = 0.1`) and
flow rate 0 (so velocity and courant are 0), conductivity 600 with density 1
and specific heat 6/5 gives diffusion number `s = 1/2 ≤ 1/2`, yet the gate
rejects, because the von Neumann number is `3/5 > 1/2`: `diffusion_number ≤
0.5` does not make the gate accept. -/
theorem C6_diffusion_bound_refuted :
    velocityOf 0 = 0 ∧
    diffusionNumber dt 600 dz 1 (6 / 5) ≤ 1 / 2 ∧
    gateAccepts (vonNeumann dt 600 dz) (courant dt (velocityOf 0) dz) = false := by
  refine ⟨by norm_num [velocityOf], by norm_num [diffusionNumber, dt, dz], ?_⟩
  rw [gateAccepts_eq_false_iff]
  right
  norm_num [vonNeumann, courant, velocityOf, dt, dz]

/-- C6 (amended): with the model's grid and flow rate 0, the velocity and
the courant number are 0, and for every nonnegative conductivity the gate
accepts exactly when the von Neumann number `(dt·conductivity)/dz²` is at
most 0.5 (the gate is independent of density and specific heat, so the
bound is on the von Neumann number, not the diffusion number). -/
theorem C6_gate_accepts_iff_vn_le_half (Dq : ℚ) (hD : 0 ≤ Dq) :
    courant dt (velocityOf 0) dz = 0 ∧
    (gateAccepts (vonNeumann dt Dq dz) (courant dt (velocityOf 0) dz) = true ↔
      vonNeumann dt Dq dz ≤ 1 / 2) := by
  have hc : courant dt (velocityOf 0) dz = 0 := by
    norm_num [courant, velocityOf, dt, dz]
  have hvn : 0 ≤ vonNeumann dt Dq dz := by
    unfold vonNeumann dt dz
    exact div_nonneg (mul_nonneg (by norm_num) hD) (by norm_num)
  refine ⟨hc, ?_⟩
  rw [hc, gateAccepts_eq_true_iff]
  constructor
  · rintro ⟨-, h2⟩
    linarith [not_lt.mp h2]
  · intro h
    constructor
    · rw [not_lt]
      nlinarith
    · rw [not_lt]
      linarith

theorem C6_gate_accepts_iff_vn_le_half_witness :
    (0 : ℚ) ≤ 6 / 10 ∧
    (courant dt (velocityOf 0) dz = 0 ∧
      (gateAccepts (vonNeumann dt (6 / 10) dz) (courant dt (velocityOf 0) dz) = true ↔
        vonNeumann dt (6 / 10) dz ≤ 1 / 2)) :=
  ⟨by norm_num, C6_gate_accepts_iff_vn_le_half (6 / 10) (by norm_num)⟩

end Geothermal
